import Mathlib

set_option maxHeartbeats 1000000

/-!
Verification development for the mage-claude-orchestrator repository.

This file shallowly embeds, in Lean 4, the parts of the repository that the
frozen claims are about:

* the code-status reconciler (`pkg/orchestrator/codestatus.go`): use-case id
  parsing, evidence-directory scanning, readiness computation, gap detection;
* the task validation policy engine (`validateMeasureOutput` and friends;
  the implementation file is absent from the provided sources, so it is
  modelled from the design spec, guided by its test suite);
* the pre-cycle report assembler (`collectConsistencyDetails`,
  `collectDefects`, analysis-snapshot write/load; likewise modelled from the
  spec, the implementation file being absent);
* the constitution markdown renderers, Go (`ConstitutionToMarkdown`) and
  TypeScript (`constitutionToMarkdown` in
  `vscode-extension/src/constitutionPreview.ts`).

File-system effects (directory listings, file reads/writes) are modelled by
explicit pure data (directory trees as inductive values, the persisted
snapshot as a structured document value); machine integers that only ever
hold non-negative counts are modelled as `Nat`.
-/

/-! ## Generic character-list helpers -/

/-- Maximal digit prefix of a character list, together with the rest
(the greedy behaviour of a `\d+` regex atom). -/
def takeDigits : List Char → List Char × List Char
  | [] => ([], [])
  | c :: cs =>
    if c.isDigit then
      let (d, r) := takeDigits cs
      (c :: d, r)
    else ([], c :: cs)

/-- `segAt needle hay`: `needle` occurs at the very start of `hay`. -/
def segAt : List Char → List Char → Bool
  | [], _ => true
  | _ :: _, [] => false
  | a :: as, b :: bs => a == b && segAt as bs

/-- `hasSeg needle hay`: `needle` occurs contiguously somewhere in `hay`
(Go `strings.Contains` on the underlying characters). -/
def hasSeg (needle : List Char) : List Char → Bool
  | [] => segAt needle []
  | b :: bs => segAt needle (b :: bs) || hasSeg needle bs

/-- String-level wrapper for `hasSeg`. -/
def strContains (hay needle : String) : Bool :=
  hasSeg needle.toList hay.toList

/-! ## Data model of `pkg/orchestrator/codestatus.go`

The roadmap structures (`RoadmapDoc`, `RoadmapRelease`, `RoadmapUseCase`) are
defined in a repository file that only declares data; their fields are exactly
the ones `codestatus.go` and its tests read: `Version`, `Name`, `Status`,
`UseCases` on a release and `ID`, `Status` on a use case. -/

structure RoadmapUseCase where
  ID : String
  Status : String
  deriving Repr, DecidableEq

structure RoadmapRelease where
  Version : String
  Name : String
  Status : String
  UseCases : List RoadmapUseCase
  deriving Repr, DecidableEq

structure RoadmapDoc where
  Releases : List RoadmapRelease
  deriving Repr, DecidableEq

/-- Go struct `UCCodeStatus` (codestatus.go). -/
structure UCCodeStatus where
  ID : String
  SpecStatus : String
  CodeStatus : String
  TestDir : String
  TestFiles : Nat
  deriving Repr, DecidableEq

/-- Go struct `ReleaseCodeStatus` (codestatus.go). -/
structure ReleaseCodeStatus where
  Version : String
  Name : String
  SpecStatus : String
  CodeReadiness : String
  UseCases : List UCCodeStatus
  deriving Repr, DecidableEq

/-- Go struct `CodeStatusReport` (codestatus.go). -/
structure CodeStatusReport where
  Releases : List ReleaseCodeStatus
  Gaps : List String
  deriving Repr, DecidableEq

/-! ## Use-case id parsing (`ucIDRe`, `ucPrefixFromID`, `testDirForUC`)

The Go code matches ids against the anchored regex `^rel(\d+\.\d+)-uc(\d+)`.
All regex atoms here are literals or greedy digit runs followed by
non-digit literals, so the match is the deterministic maximal-munch parse
below; on success the two capture groups are the release version digits
(`\d+\.\d+`) and the use-case number digits. -/

/-- The submatch of `ucIDRe` at the start of `ucID`: `some (version, ucNum)`
when the id starts with `rel<digits>.<digits>-uc<digits>`, else `none`. -/
def ucIDSubmatch (ucID : String) : Option (String × String) :=
  match ucID.toList with
  | 'r' :: 'e' :: 'l' :: rest =>
    match takeDigits rest with
    | ([], _) => none
    | (d1, r1) =>
      match r1 with
      | '.' :: r2 =>
        match takeDigits r2 with
        | ([], _) => none
        | (d2, r3) =>
          match r3 with
          | '-' :: 'u' :: 'c' :: r4 =>
            match takeDigits r4 with
            | ([], _) => none
            | (d3, _) => some (String.mk (d1 ++ '.' :: d2), String.mk d3)
          | _ => none
      | _ => none
  | _ => none

/-- Go `ucPrefixFromID`: `ucIDRe.FindString(ucID)`, i.e. the whole matched
text `rel<version>-uc<number>`, or `""` when the id does not match. -/
def ucPrefixFromID (ucID : String) : String :=
  match ucIDSubmatch ucID with
  | none => ""
  | some (ver, num) => "rel" ++ ver ++ "-uc" ++ num

/-- Go `testDirForUC`: the expected evidence directory
`tests/rel<version>/uc<number>`, or `""` when the id does not match
(`filepath.Join` with `/` separators). -/
def testDirForUC (ucID : String) : String :=
  match ucIDSubmatch ucID with
  | none => ""
  | some (ver, num) => "tests/rel" ++ ver ++ "/uc" ++ num

/-! ## Evidence-directory scan (`countTestFiles`, `scanTestDirectories`)

The on-disk tree under the tests root is modelled as a list of nodes, each a
file or a directory with children; `os.ReadDir` returns entries sorted by
name, which the model inherits by treating the child lists as already in
that order. -/

inductive FsNode where
  | file (name : String)
  | dir (name : String) (children : List FsNode)
  deriving Repr

/-- Go `countTestFiles`: the number of non-directory entries whose name ends
in `_test.go`. -/
def countTestFiles (entries : List FsNode) : Nat :=
  entries.countP fun e =>
    match e with
    | .file n => "_test.go".toList.isSuffixOf n.toList
    | .dir _ _ => false

/-- Go `scanTestDirectories`: walk the tests root; for each directory whose
name starts with `rel`, for each child directory whose name starts with `uc`,
record `relName-ucName ↦ count` when the `_test.go` count is positive.
The resulting Go map is modelled as an association list in insertion order
(keys are distinct because directory names within one directory are). -/
def scanTestDirectories (testsRoot : List FsNode) : List (String × Nat) :=
  testsRoot.foldl
    (fun acc e =>
      match e with
      | .file _ => acc
      | .dir relName relChildren =>
        if "rel".toList.isPrefixOf relName.toList then
          relChildren.foldl
            (fun acc2 e2 =>
              match e2 with
              | .file _ => acc2
              | .dir ucName ucChildren =>
                if "uc".toList.isPrefixOf ucName.toList then
                  if countTestFiles ucChildren > 0 then
                    acc2 ++ [(relName ++ "-" ++ ucName, countTestFiles ucChildren)]
                  else acc2
                else acc2)
            acc
        else acc)
    []

/-- Reading a Go map: `testDirScan[prefix]` yields the stored value, or the
zero value `0` when the key is absent. -/
def scanLookup (scan : List (String × Nat)) (key : String) : Nat :=
  match scan.find? (fun kv => kv.1 == key) with
  | some kv => kv.2
  | none => 0

/-! ## `computeCodeStatus` -/

/-- One iteration of the use-case loop in `computeCodeStatus`: derive the
prefix, look up the scan, and classify. `TestFiles` always carries the looked
up count (which is `0` exactly in the "not started" branch). -/
def ucCodeStatusOf (scan : List (String × Nat)) (uc : RoadmapUseCase) : UCCodeStatus :=
  let testCount := scanLookup scan (ucPrefixFromID uc.ID)
  if testCount > 0 then
    { ID := uc.ID, SpecStatus := uc.Status, CodeStatus := "implemented",
      TestDir := testDirForUC uc.ID, TestFiles := testCount }
  else
    { ID := uc.ID, SpecStatus := uc.Status, CodeStatus := "not started",
      TestDir := "", TestFiles := testCount }

/-- Whether a use case counts toward the `implemented` counter of its
release in `computeCodeStatus`. -/
def ucImplemented (scan : List (String × Nat)) (uc : RoadmapUseCase) : Bool :=
  scanLookup scan (ucPrefixFromID uc.ID) > 0

/-- The per-release body of `computeCodeStatus`: the use-case loop both
builds the `UseCases` slice and counts the implemented ones; the final
`switch` picks the readiness string. -/
def buildRelStatus (scan : List (String × Nat)) (r : RoadmapRelease) : ReleaseCodeStatus :=
  let implemented := r.UseCases.countP (ucImplemented scan)
  { Version := r.Version, Name := r.Name, SpecStatus := r.Status,
    CodeReadiness :=
      if implemented = r.UseCases.length then "all implemented"
      else if implemented > 0 then "partial"
      else "none",
    UseCases := r.UseCases.map (ucCodeStatusOf scan) }

/-- Go `computeCodeStatus`: loop over roadmap releases, `continue` past the
ones with an empty use-case list, append a `ReleaseCodeStatus` for the rest.
`Gaps` is left at its zero value. -/
def computeCodeStatus (roadmap : RoadmapDoc) (scan : List (String × Nat)) : CodeStatusReport :=
  { Releases :=
      roadmap.Releases.foldl
        (fun acc r =>
          if r.UseCases.length = 0 then acc
          else acc ++ [buildRelStatus scan r])
        [],
    Gaps := [] }

/-! ## `detectSpecCodeGaps` -/

/-- Minimal model of Go `%q` for the closed status vocabulary involved
(statuses contain no characters that `%q` would escape). -/
def goQuote (s : String) : String := "\"" ++ s ++ "\""

/-- The release-level gap message of `detectSpecCodeGaps`. -/
def relGapMsg (rel : ReleaseCodeStatus) : String :=
  "release " ++ rel.Version ++ ": spec status is " ++ goQuote rel.SpecStatus
    ++ " but code readiness is " ++ goQuote rel.CodeReadiness

/-- The use-case-level gap message of `detectSpecCodeGaps`. -/
def ucGapMsg (uc : UCCodeStatus) : String :=
  uc.ID ++ ": spec status is " ++ goQuote uc.SpecStatus ++ " but no test files found"

/-- Go `detectSpecCodeGaps`: for each release append one release-level gap
when its spec status is `done` but its readiness is not `all implemented`,
then for each of its use cases one use-case-level gap when its spec status
is `done` but its code status is `not started`. -/
def detectSpecCodeGaps (report : CodeStatusReport) : List String :=
  report.Releases.foldl
    (fun gaps rel =>
      rel.UseCases.foldl
        (fun g uc =>
          if uc.SpecStatus = "done" ∧ uc.CodeStatus = "not started" then
            g ++ [ucGapMsg uc]
          else g)
        (if rel.SpecStatus = "done" ∧ rel.CodeReadiness ≠ "all implemented" then
          gaps ++ [relGapMsg rel]
         else gaps))
    []

/-! ## `CodeStatus` (the orchestrator entry point)

`CodeStatus` loads `docs/road-map.yaml` (modelled by an `Option RoadmapDoc`
load outcome), scans `tests/` (modelled by the tree), computes the report and
its gaps, prints the full report, and only then turns a non-zero gap count
into an error for the invoking CLI layer. The outcome keeps both the printed
report (`none` exactly when no report was computed at all) and the returned
error. -/

structure CodeStatusOutcome where
  report : Option CodeStatusReport
  err : Option String
  deriving Repr, DecidableEq

/-- Go `(*Orchestrator).CodeStatus`, with the roadmap load outcome and the
tests tree as explicit inputs. -/
def codeStatusRun (roadmapLoad : Option RoadmapDoc) (testsRoot : List FsNode) :
    CodeStatusOutcome :=
  match roadmapLoad with
  | none => { report := none, err := some "cannot load docs/road-map.yaml" }
  | some roadmap =>
    let testScan := scanTestDirectories testsRoot
    let report0 := computeCodeStatus roadmap testScan
    let report := { report0 with Gaps := detectSpecCodeGaps report0 }
    { report := some report,
      err :=
        if report.Gaps.length > 0 then
          some ("found " ++ toString report.Gaps.length ++ " spec-vs-code gap(s)")
        else none }

/-! ## Task validation policy engine

The repository file implementing `validateMeasureOutput` and its helpers is
not among the provided sources; only its test suite is. The definitions in
this section are therefore modelled from the design spec (§4.3 of the design
document), with error-message markers taken from the substrings the test
suite asserts ("P7 violation", "max is"). The YAML sub-document embedded in
a proposed task's free-text description is modelled by its parse outcome: a
`TaskDescription` when the description parses, `none` when it does not. -/

/-- Modelled from the spec: the structured sub-document embedded in a
proposed task's description (`deliverable_type`, `files[]`,
`requirements[]`, `acceptance_criteria[]`, `design_decisions[]`); the three
item lists are modelled by their lengths, which is all the policies read. -/
structure TaskDescription where
  deliverableType : String
  files : List String
  requirements : Nat
  acceptanceCriteria : Nat
  designDecisions : Nat
  deriving Repr, DecidableEq

/-- Modelled from the spec: the requirement-count range keyed by deliverable
type — `code` 5..8 inclusive, `documentation` 2..4 inclusive, anything else
defaulting conservatively to the `code` range. -/
def reqRange (deliverableType : String) : Nat × Nat :=
  if deliverableType = "documentation" then (2, 4) else (5, 8)

/-- The requirement-count range error, naming the task, the observed count
and the allowed range (P9 is the policy id the tests name). -/
def rangeMsg (title : String) (n lo hi : Nat) : String :=
  "task " ++ title ++ ": P9 violation: " ++ toString n
    ++ " requirements, allowed range " ++ toString lo ++ "-" ++ toString hi

/-- Modelled from the spec: one range error when the requirement count falls
outside the deliverable type's range, none otherwise. -/
def rangeErrors (title : String) (d : TaskDescription) : List String :=
  let lo := (reqRange d.deliverableType).1
  let hi := (reqRange d.deliverableType).2
  if d.requirements < lo ∨ hi < d.requirements then
    [rangeMsg title d.requirements lo hi]
  else []

/-- The cap error, naming the task title, the observed count and the
configured limit ("max is" is the substring the tests assert). -/
def capMsg (title : String) (n maxReqs : Nat) : String :=
  "task " ++ title ++ ": " ++ toString n ++ " requirements, max is " ++ toString maxReqs

/-- Modelled from the spec: one additional, independent error when a positive
maximum-requirements cap is configured and the count strictly exceeds it;
a zero cap means no ceiling. -/
def capErrors (title : String) (d : TaskDescription) (maxReqs : Nat) : List String :=
  if 0 < maxReqs ∧ maxReqs < d.requirements then
    [capMsg title d.requirements maxReqs]
  else []

/-- Final path component (Go `filepath.Base`) as characters. -/
def lastComp (p : List Char) : List Char :=
  (p.reverse.takeWhile (fun c => !(c == '/'))).reverse

/-- The component before the final path separator as characters. -/
def parentCompOf (p : List Char) : List Char :=
  (((p.reverse.dropWhile (fun c => !(c == '/'))).drop 1).takeWhile
    (fun c => !(c == '/'))).reverse

/-- The name of the immediate parent directory, `filepath.Base (filepath.Dir path)`:
the component before the final separator, or `.` when the path has no
separator (Go `filepath.Dir` of a bare file name). -/
def parentDirName (path : String) : String :=
  if path.toList.contains '/' then String.mk (parentCompOf path.toList) else "."

/-- Strip the extension (everything from the final dot on) from a file's
base name characters: Go `strings.TrimSuffix(base, filepath.Ext(base))`. -/
def stripExt (name : List Char) : List Char :=
  if name.contains '.' then
    ((name.reverse.dropWhile (fun c => !(c == '.'))).drop 1).reverse
  else name

/-- The file's base name without extension. -/
def baseNameNoExt (path : String) : String :=
  String.mk (stripExt (lastComp path.toList))

/-- Modelled from the spec: a declared file breaks the naming-collision
policy exactly when its base name without extension equals the name of its
immediate parent directory. -/
def fileCollides (path : String) : Bool :=
  baseNameNoExt path == parentDirName path

/-- The naming-collision error, citing the file path and the collision-policy
violation id ("P7 violation" is the substring the tests assert). -/
def p7msg (path : String) : String :=
  "P7 violation: file " ++ path ++ " is named after its package directory"

/-- Modelled from the spec: one collision error per declared file whose base
name without extension equals its immediate parent directory's name. -/
def collisionErrors (files : List String) : List String :=
  files.filterMap fun p => if fileCollides p then some (p7msg p) else none

/-- Modelled from the spec (§4.3 step 5): minimum-count checks consistent
with the type-specific profile — at least one acceptance criterion for any
type, and at least one design decision for non-documentation deliverables
(the test suite's valid documentation task declares no design decisions). -/
def minCountErrors (title : String) (d : TaskDescription) : List String :=
  (if d.acceptanceCriteria = 0 then
    ["task " ++ title ++ ": no acceptance criteria declared"]
   else [])
  ++ (if d.deliverableType ≠ "documentation" ∧ d.designDecisions = 0 then
    ["task " ++ title ++ ": no design decisions declared"]
   else [])

/-- Modelled from the spec: all structural checks for one parsed task, in
the spec's order — requirement-count range, requirement cap, naming
collisions, minimum counts. -/
def validateTask (title : String) (d : TaskDescription) (maxReqs : Nat) : List String :=
  rangeErrors title d ++ capErrors title d maxReqs
    ++ collisionErrors d.files ++ minCountErrors title d

/-- Go struct `proposedIssue`, its free-text description replaced by the
parse outcome of the embedded sub-document. -/
structure proposedIssue where
  Index : Nat
  Title : String
  Description : Option TaskDescription
  deriving Repr, DecidableEq

/-- The validation result: independent error and warning lists. -/
structure validationResult where
  Errors : List String
  Warnings : List String
  deriving Repr, DecidableEq

/-- `HasErrors` is true iff the errors list is non-empty. -/
def validationResult.HasErrors (vr : validationResult) : Bool :=
  !vr.Errors.isEmpty

/-- Modelled from the spec: validate every proposed task, accumulating all
checks into one combined result; an unparseable description contributes one
warning (never an error) and validation continues with the next task. -/
def validateMeasureOutput (issues : List proposedIssue) (maxReqs : Nat) : validationResult :=
  issues.foldl
    (fun vr i =>
      match i.Description with
      | none =>
        { vr with Warnings :=
            vr.Warnings ++ ["task " ++ i.Title ++ ": description does not parse"] }
      | some d =>
        { vr with Errors := vr.Errors ++ validateTask i.Title d maxReqs })
    { Errors := [], Warnings := [] }

/-! ## Pre-cycle report assembly

`collectConsistencyDetails`, `collectDefects`, `AnalysisDoc` and the
snapshot write/load are implemented in a repository file absent from the
provided sources (only `precycle_test.go` is present); the definitions below
are modelled from the design spec (§4.1 ordering contract, §6 persisted
snapshot), with the entry prefixes taken from the test suite's assertions. -/

/-- The analyzer result: six graph-shape categories plus the two defect
categories, each an ordered slice (fields as read by `precycle_test.go`). -/
structure AnalyzeResult where
  OrphanedPRDs : List String
  ReleasesWithoutTestSuites : List String
  OrphanedTestSuites : List String
  BrokenTouchpoints : List String
  UseCasesNotInRoadmap : List String
  SchemaErrors : List String
  ConstitutionDrift : List String
  BrokenCitations : List String
  deriving Repr, DecidableEq

/-- Modelled from the spec: merge the six graph-shape categories into one
textual detail list in the fixed order orphaned requirement documents,
releases without test suites, orphaned test suites, broken touchpoints,
use cases not in roadmap, broken citations; schema errors and drift are
excluded. -/
def collectConsistencyDetails (r : AnalyzeResult) : List String :=
  r.OrphanedPRDs.map (fun s => "orphaned PRD: " ++ s)
    ++ r.ReleasesWithoutTestSuites.map (fun s => "release without test suite: " ++ s)
    ++ r.OrphanedTestSuites.map (fun s => "orphaned test suite: " ++ s)
    ++ r.BrokenTouchpoints.map (fun s => "broken touchpoint: " ++ s)
    ++ r.UseCasesNotInRoadmap.map (fun s => "use case not in roadmap: " ++ s)
    ++ r.BrokenCitations.map (fun s => "broken citation: " ++ s)

/-- Modelled from the spec: defects render in their own list, schema errors
first, then drift entries. -/
def collectDefects (r : AnalyzeResult) : List String :=
  r.SchemaErrors.map (fun s => "schema error: " ++ s)
    ++ r.ConstitutionDrift.map (fun s => "constitution drift: " ++ s)

/-- The persisted analysis snapshot: consistency-error count, ordered
consistency-details list, ordered defects list, nested code-status
structure (fields as read by `precycle_test.go`). -/
structure AnalysisDoc where
  ConsistencyErrors : Nat
  ConsistencyDetails : List String
  Defects : List String
  CodeStatus : Option CodeStatusReport
  deriving Repr, DecidableEq

/-- A structured document value: the YAML value tree a snapshot serializes
to (mappings keep their key order, as YAML emission does). -/
inductive DocVal where
  | str (s : String)
  | nat (n : Nat)
  | arr (xs : List DocVal)
  | dict (kvs : List (String × DocVal))
  deriving Repr

/-- Field lookup in a serialized mapping. -/
def getField (kvs : List (String × DocVal)) (k : String) : Option DocVal :=
  (kvs.find? (fun kv => kv.1 == k)).map (fun kv => kv.2)

/-- Read back a scalar string. -/
def asStr : DocVal → Option String
  | .str s => some s
  | _ => none

/-- Read back a scalar count. -/
def asNat : DocVal → Option Nat
  | .nat n => some n
  | _ => none

/-- Read back a sequence. -/
def asArr : DocVal → Option (List DocVal)
  | .arr xs => some xs
  | _ => none

/-- Decode every element of a sequence, failing when any element fails. -/
def decodeList (f : DocVal → Option α) : List DocVal → Option (List α)
  | [] => some []
  | v :: vs =>
    match f v, decodeList f vs with
    | some a, some as => some (a :: as)
    | _, _ => none

/-- Modelled from the spec: serialize one use-case entry of the snapshot. -/
def encodeUC (u : UCCodeStatus) : DocVal :=
  .dict [("id", .str u.ID), ("spec_status", .str u.SpecStatus),
         ("code_status", .str u.CodeStatus), ("test_dir", .str u.TestDir),
         ("test_files", .nat u.TestFiles)]

/-- Modelled from the spec: serialize one release entry of the snapshot. -/
def encodeRelease (r : ReleaseCodeStatus) : DocVal :=
  .dict [("version", .str r.Version), ("name", .str r.Name),
         ("spec_status", .str r.SpecStatus), ("code_readiness", .str r.CodeReadiness),
         ("use_cases", .arr (r.UseCases.map encodeUC))]

/-- Modelled from the spec: serialize the nested code-status structure. -/
def encodeReport (c : CodeStatusReport) : DocVal :=
  .dict [("releases", .arr (c.Releases.map encodeRelease)),
         ("gaps", .arr (c.Gaps.map DocVal.str))]

/-- Modelled from the spec: `writeAnalysisDoc` serializes the snapshot with
its four top-level fields; an absent code-status structure is omitted. -/
def encodeAnalysisDoc (d : AnalysisDoc) : DocVal :=
  .dict ([("consistency_errors", .nat d.ConsistencyErrors),
          ("consistency_details", .arr (d.ConsistencyDetails.map DocVal.str)),
          ("defects", .arr (d.Defects.map DocVal.str))]
    ++ (match d.CodeStatus with
        | none => []
        | some c => [("code_status", encodeReport c)]))

/-- Decode one use-case entry. -/
def decodeUC (v : DocVal) : Option UCCodeStatus :=
  match v with
  | .dict kvs => do
    let id ← getField kvs "id" >>= asStr
    let specStatus ← getField kvs "spec_status" >>= asStr
    let codeStatus ← getField kvs "code_status" >>= asStr
    let testDir ← getField kvs "test_dir" >>= asStr
    let testFiles ← getField kvs "test_files" >>= asNat
    pure { ID := id, SpecStatus := specStatus, CodeStatus := codeStatus,
           TestDir := testDir, TestFiles := testFiles }
  | _ => none

/-- Decode one release entry. -/
def decodeRelease (v : DocVal) : Option ReleaseCodeStatus :=
  match v with
  | .dict kvs => do
    let version ← getField kvs "version" >>= asStr
    let name ← getField kvs "name" >>= asStr
    let specStatus ← getField kvs "spec_status" >>= asStr
    let readiness ← getField kvs "code_readiness" >>= asStr
    let ucVals ← getField kvs "use_cases" >>= asArr
    let ucs ← decodeList decodeUC ucVals
    pure { Version := version, Name := name, SpecStatus := specStatus,
           CodeReadiness := readiness, UseCases := ucs }
  | _ => none

/-- Decode the nested code-status structure. -/
def decodeReport (v : DocVal) : Option CodeStatusReport :=
  match v with
  | .dict kvs => do
    let relVals ← getField kvs "releases" >>= asArr
    let rels ← decodeList decodeRelease relVals
    let gapVals ← getField kvs "gaps" >>= asArr
    let gaps ← decodeList asStr gapVals
    pure { Releases := rels, Gaps := gaps }
  | _ => none

/-- Modelled from the spec: `loadAnalysisDoc` reads the snapshot back; a
missing code-status field loads as an absent structure. -/
def decodeAnalysisDoc (v : DocVal) : Option AnalysisDoc :=
  match v with
  | .dict kvs => do
    let errs ← getField kvs "consistency_errors" >>= asNat
    let detailVals ← getField kvs "consistency_details" >>= asArr
    let details ← decodeList asStr detailVals
    let defectVals ← getField kvs "defects" >>= asArr
    let defects ← decodeList asStr defectVals
    let codeStatus ←
      match getField kvs "code_status" with
      | none => some none
      | some cv => (decodeReport cv).map some
    pure { ConsistencyErrors := errs, ConsistencyDetails := details,
           Defects := defects, CodeStatus := codeStatus }
  | _ => none

/-! ## Constitution markdown renderers (Go and TypeScript)

`ConstitutionToMarkdown` is the Go renderer; `constitutionToMarkdownTS`
embeds `constitutionToMarkdown` from
`vscode-extension/src/constitutionPreview.ts`, whose doc comment says it
mirrors the Go one. -/

/-- The section record shared by both renderers (Go `ConstitutionSection`
and the TypeScript interface of the same name). -/
structure ConstitutionSection where
  Tag : String
  Title : String
  Content : String
  deriving Repr, DecidableEq

/-- Go `strings.TrimRight(s, "\n")`: remove every trailing newline. -/
def trimRightNewlines (s : String) : String :=
  String.mk ((s.toList.reverse.dropWhile (fun c => c == '\n')).reverse)

/-- The ECMAScript whitespace set trimmed by `String.prototype.trimEnd`:
WhiteSpace (tab, VT, FF, space, NBSP, the Unicode space separators, BOM)
plus LineTerminator (LF, CR, LS, PS). -/
def jsWhitespace (c : Char) : Bool :=
  let n := c.toNat
  n == 0x9 || n == 0xa || n == 0xb || n == 0xc || n == 0xd || n == 0x20
    || n == 0xa0 || n == 0x1680
    || (decide (0x2000 ≤ n) && decide (n ≤ 0x200a))
    || n == 0x2028 || n == 0x2029 || n == 0x202f || n == 0x205f
    || n == 0x3000 || n == 0xfeff

/-- TypeScript `s.trimEnd()`: remove every trailing whitespace character. -/
def jsTrimEnd (s : String) : String :=
  String.mk ((s.toList.reverse.dropWhile jsWhitespace).reverse)

/-- The chunk Go `fmt.Fprintf(&b, "## %s\n\n%s\n\n", ...)` appends for one
section. -/
def goChunk (s : ConstitutionSection) : String :=
  "## " ++ s.Title ++ "\n\n" ++ trimRightNewlines s.Content ++ "\n\n"

/-- Go `ConstitutionToMarkdown`: a `strings.Builder` loop appending one
formatted chunk per section. -/
def ConstitutionToMarkdown (sections : List ConstitutionSection) : String :=
  sections.foldl (fun b s => b ++ goChunk s) ""

/-- The template string one section renders to in the TypeScript version. -/
def tsChunk (s : ConstitutionSection) : String :=
  "## " ++ s.Title ++ "\n\n" ++ jsTrimEnd s.Content ++ "\n\n"

/-- TypeScript `constitutionToMarkdown`: `sections.map(...).join("")`. -/
def constitutionToMarkdownTS (sections : List ConstitutionSection) : String :=
  String.join (sections.map tsChunk)

/-! ## Derived definitions used by the theorems -/

/-- The gap entries one release contributes: its release-level gap when its
spec status is `done` but its readiness is not `all implemented`, followed by
one use-case-level gap for each of its use cases whose spec status is `done`
but whose code status is `not started`. -/
def relGapEntries (rel : ReleaseCodeStatus) : List String :=
  (if rel.SpecStatus = "done" ∧ rel.CodeReadiness ≠ "all implemented" then
    [relGapMsg rel]
   else [])
    ++ rel.UseCases.filterMap (fun uc =>
        if uc.SpecStatus = "done" ∧ uc.CodeStatus = "not started" then
          some (ucGapMsg uc)
        else none)

/-- The spec's reconciler scenario: one release with two `done` use cases. -/
def scenarioRoadmap : RoadmapDoc :=
  { Releases := [{ Version := "01.0", Name := "Core", Status := "in progress",
                   UseCases := [{ ID := "rel01.0-uc001-init", Status := "done" },
                                { ID := "rel01.0-uc002-lifecycle", Status := "done" }] }] }

/-- The spec's reconciler scenario: only the first use case is backed by a
test-evidence directory containing one matching file. -/
def scenarioTree : List FsNode :=
  [.dir "rel01.0" [.dir "uc001" [.file "init_test.go"]]]

/-- The analyzer result of `TestCollectConsistencyDetails_AllFields`: one
entry in every category. -/
def testAnalyzeResult : AnalyzeResult :=
  { OrphanedPRDs := ["prd-orphan"],
    ReleasesWithoutTestSuites := ["rel01.0"],
    OrphanedTestSuites := ["test-rel99.0"],
    BrokenTouchpoints := ["uc001->prd-missing"],
    UseCasesNotInRoadmap := ["rel01.0-uc099"],
    SchemaErrors := ["bad-field.yaml"],
    ConstitutionDrift := ["design.yaml"],
    BrokenCitations := ["uc001->prd001:R99"] }

/-- A section content whose only trailing whitespace characters are
newlines: after dropping trailing newlines, it does not end in another
whitespace character. On such content `trimEnd` and
`strings.TrimRight(s, "\n")` agree. -/
def newlineOnlyTail (content : String) : Bool :=
  match (content.toList.reverse.dropWhile (fun x => x == '\n')).head? with
  | none => true
  | some c => !(jsWhitespace c)

/-! ## Helper lemmas -/

theorem toList_append (a b : String) : (a ++ b).toList = a.toList ++ b.toList := by
  simp [String.toList]

theorem takeWhile_append_of_all (p : Char → Bool) (l r : List Char)
    (h : ∀ x ∈ l, p x = true) : (l ++ r).takeWhile p = l ++ r.takeWhile p := by
  induction l with
  | nil => rfl
  | cons c t ih => simp_all [List.takeWhile_cons]

theorem dropWhile_append_of_all (p : Char → Bool) (l r : List Char)
    (h : ∀ x ∈ l, p x = true) : (l ++ r).dropWhile p = r.dropWhile p := by
  induction l with
  | nil => rfl
  | cons c t ih => simp_all [List.dropWhile_cons]

theorem segAt_self_append (a b : List Char) : segAt a (a ++ b) = true := by
  induction a with
  | nil => rfl
  | cons c t ih => simp [segAt, ih]

theorem hasSeg_of_middle (pre mid post : List Char) :
    hasSeg mid (pre ++ (mid ++ post)) = true := by
  induction pre with
  | nil =>
    cases mid with
    | nil => cases post <;> simp [hasSeg, segAt]
    | cons c t =>
      simp only [List.nil_append, hasSeg, Bool.or_eq_true]
      exact Or.inl (by simpa using segAt_self_append (c :: t) post)
  | cons c t ih => simp [hasSeg, ih]

/-- `strContains` holds whenever the needle occurs as a literal middle
segment of a concatenation. -/
theorem strContains_middle (pre mid post : String) :
    strContains (pre ++ mid ++ post) mid = true := by
  have : (pre ++ mid ++ post).toList = pre.toList ++ (mid.toList ++ post.toList) := by
    simp [toList_append]
  simp [strContains, this, hasSeg_of_middle]

/-! ## Gap detection characterized (`detectSpecCodeGaps`) -/

theorem gaps_inner_fold (ucs : List UCCodeStatus) (acc : List String) :
    ucs.foldl
      (fun g uc =>
        if uc.SpecStatus = "done" ∧ uc.CodeStatus = "not started" then
          g ++ [ucGapMsg uc]
        else g)
      acc
    = acc ++ ucs.filterMap (fun uc =>
        if uc.SpecStatus = "done" ∧ uc.CodeStatus = "not started" then
          some (ucGapMsg uc)
        else none) := by
  induction ucs generalizing acc with
  | nil => simp
  | cons u us ih =>
    by_cases h : u.SpecStatus = "done" ∧ u.CodeStatus = "not started" <;>
      simp [h, ih, List.filterMap_cons]

theorem detectSpecCodeGaps_eq (report : CodeStatusReport) :
    detectSpecCodeGaps report = report.Releases.flatMap relGapEntries := by
  unfold detectSpecCodeGaps
  suffices h : ∀ (rels : List ReleaseCodeStatus) (acc : List String),
      rels.foldl
        (fun gaps rel =>
          rel.UseCases.foldl
            (fun g uc =>
              if uc.SpecStatus = "done" ∧ uc.CodeStatus = "not started" then
                g ++ [ucGapMsg uc]
              else g)
            (if rel.SpecStatus = "done" ∧ rel.CodeReadiness ≠ "all implemented" then
              gaps ++ [relGapMsg rel]
             else gaps))
        acc = acc ++ rels.flatMap relGapEntries by
    simpa using h report.Releases []
  intro rels
  induction rels with
  | nil => simp
  | cons rel rest ih =>
    intro acc
    simp only [List.foldl_cons]
    rw [gaps_inner_fold, ih, List.flatMap_cons]
    by_cases h : rel.SpecStatus = "done" ∧ rel.CodeReadiness ≠ "all implemented" <;>
      simp [h, relGapEntries, List.append_assoc]

/-- C1: for every report the reconciler records a release-level gap exactly
for the releases whose declared spec status is `done` while their
`CodeReadiness` is not `all implemented`, and a use-case-level gap exactly
for the use cases whose declared spec status is `done` while their code
status is `not started` (each release contributing its release-level gap
followed by its use-case-level gaps); and in the spec's scenario — one
release with two `done` use cases, only the first backed by an evidence
directory with one matching test file — the readiness is `partial` and the
gap list is exactly one use-case-level gap for the unbacked use case. -/
theorem spec_code_gap_rules :
    (∀ report : CodeStatusReport,
       detectSpecCodeGaps report = report.Releases.flatMap relGapEntries)
    ∧ ((computeCodeStatus scenarioRoadmap (scanTestDirectories scenarioTree)).Releases.map
         (fun r => r.CodeReadiness) = ["partial"]
       ∧ detectSpecCodeGaps (computeCodeStatus scenarioRoadmap (scanTestDirectories scenarioTree))
           = [ucGapMsg { ID := "rel01.0-uc002-lifecycle", SpecStatus := "done",
                         CodeStatus := "not started", TestDir := "", TestFiles := 0 }]) :=
  ⟨detectSpecCodeGaps_eq, by decide, by decide⟩

/-! ## Readiness characterized (`computeCodeStatus`) -/

theorem ucCodeStatus_implemented (scan : List (String × Nat)) (uc : RoadmapUseCase) :
    ((ucCodeStatusOf scan uc).CodeStatus == "implemented") = ucImplemented scan uc := by
  unfold ucCodeStatusOf ucImplemented
  by_cases h : scanLookup scan (ucPrefixFromID uc.ID) > 0 <;> simp [h]

theorem all_map_congr (f : α → β) (p : β → Bool) (q : α → Bool)
    (h : ∀ a, p (f a) = q a) (l : List α) : (l.map f).all p = l.all q := by
  induction l <;> simp_all

theorem any_map_congr (f : α → β) (p : β → Bool) (q : α → Bool)
    (h : ∀ a, p (f a) = q a) (l : List α) : (l.map f).any p = l.any q := by
  induction l <;> simp_all

theorem buildRelStatus_readiness (scan : List (String × Nat)) (r : RoadmapRelease) :
    (buildRelStatus scan r).CodeReadiness =
      if (buildRelStatus scan r).UseCases.all (fun u => u.CodeStatus == "implemented") then
        "all implemented"
      else if (buildRelStatus scan r).UseCases.any (fun u => u.CodeStatus == "implemented") then
        "partial"
      else "none" := by
  have hall : ((buildRelStatus scan r).UseCases.all (fun u => u.CodeStatus == "implemented"))
      = r.UseCases.all (ucImplemented scan) :=
    all_map_congr _ _ _ (ucCodeStatus_implemented scan) r.UseCases
  have hany : ((buildRelStatus scan r).UseCases.any (fun u => u.CodeStatus == "implemented"))
      = r.UseCases.any (ucImplemented scan) :=
    any_map_congr _ _ _ (ucCodeStatus_implemented scan) r.UseCases
  rw [hall, hany]
  show (if r.UseCases.countP (ucImplemented scan) = r.UseCases.length then "all implemented"
        else if r.UseCases.countP (ucImplemented scan) > 0 then "partial" else "none") = _
  by_cases h1 : r.UseCases.countP (ucImplemented scan) = r.UseCases.length
  · have : r.UseCases.all (ucImplemented scan) = true :=
      List.all_eq_true.2 (List.countP_eq_length.1 h1)
    simp [h1, this]
  · have hnall : r.UseCases.all (ucImplemented scan) = false := by
      cases ht : r.UseCases.all (ucImplemented scan) with
      | false => rfl
      | true => exact absurd (List.countP_eq_length.2 (List.all_eq_true.1 ht)) h1
    by_cases h2 : r.UseCases.countP (ucImplemented scan) > 0
    · have : r.UseCases.any (ucImplemented scan) = true := by
        rcases List.countP_pos_iff.1 h2 with ⟨a, ha, hpa⟩
        exact List.any_eq_true.2 ⟨a, ha, hpa⟩
      simp [h1, h2, hnall, this]
    · have : r.UseCases.any (ucImplemented scan) = false := by
        cases ht : r.UseCases.any (ucImplemented scan) with
        | false => rfl
        | true =>
          rcases List.any_eq_true.1 ht with ⟨a, ha, hpa⟩
          exact absurd (List.countP_pos_iff.2 ⟨a, ha, hpa⟩) h2
      simp [h1, h2, hnall, this]

theorem computeCodeStatus_releases (roadmap : RoadmapDoc) (scan : List (String × Nat)) :
    (computeCodeStatus roadmap scan).Releases
      = (roadmap.Releases.filter (fun r => !r.UseCases.isEmpty)).map (buildRelStatus scan) := by
  show roadmap.Releases.foldl _ [] = _
  suffices h : ∀ (rels : List RoadmapRelease) (acc : List ReleaseCodeStatus),
      rels.foldl
        (fun acc r => if r.UseCases.length = 0 then acc else acc ++ [buildRelStatus scan r]) acc
      = acc ++ (rels.filter (fun r => !r.UseCases.isEmpty)).map (buildRelStatus scan) by
    simpa using h roadmap.Releases []
  intro rels
  induction rels with
  | nil => simp
  | cons r rest ih =>
    intro acc
    have hstep : (if r.UseCases.length = 0 then acc else acc ++ [buildRelStatus scan r])
        = acc ++ (if !r.UseCases.isEmpty then [buildRelStatus scan r] else []) := by
      cases hu : r.UseCases <;> simp
    simp only [List.foldl_cons]
    rw [hstep, ih, List.filter_cons]
    cases hu : r.UseCases <;> simp [List.append_assoc]

/-- C2: every release with an empty use-case list is omitted from the
report; each remaining release appears with readiness `all implemented`
when every one of its use cases has code status `implemented`, `partial`
when at least one but not all do, and `none` when none do. -/
theorem release_readiness_rules :
    ∀ (roadmap : RoadmapDoc) (scan : List (String × Nat)),
      (computeCodeStatus roadmap scan).Releases
        = (roadmap.Releases.filter (fun r => !r.UseCases.isEmpty)).map (buildRelStatus scan)
      ∧ ∀ r : RoadmapRelease,
          (buildRelStatus scan r).CodeReadiness =
            if (buildRelStatus scan r).UseCases.all (fun u => u.CodeStatus == "implemented") then
              "all implemented"
            else if (buildRelStatus scan r).UseCases.any (fun u => u.CodeStatus == "implemented") then
              "partial"
            else "none" :=
  fun roadmap scan =>
    ⟨computeCodeStatus_releases roadmap scan, fun r => buildRelStatus_readiness scan r⟩

/-! ## Failure semantics of the `CodeStatus` entry point -/

/-- C3: only the unavailability of the roadmap aborts the run without a
report; whenever the roadmap loads, the entry point finishes with the full
report — the computed release statuses with the detected gaps attached —
no matter how many gaps were detected. -/
theorem codeStatus_failure_semantics :
    (∀ (roadmapLoad : Option RoadmapDoc) (testsRoot : List FsNode),
       ((codeStatusRun roadmapLoad testsRoot).report = none ↔ roadmapLoad = none))
    ∧ ∀ (roadmap : RoadmapDoc) (testsRoot : List FsNode),
        (codeStatusRun (some roadmap) testsRoot).report
          = some { Releases := (computeCodeStatus roadmap (scanTestDirectories testsRoot)).Releases,
                   Gaps := detectSpecCodeGaps (computeCodeStatus roadmap (scanTestDirectories testsRoot)) } := by
  constructor
  · intro roadmapLoad testsRoot
    cases roadmapLoad <;> simp [codeStatusRun]
  · intro roadmap testsRoot
    rfl

/-! ## Non-matching use-case ids (`ucIDRe` misses) -/

theorem foldl_mem_invariant {α β : Type} (P : β → Prop) (f : List β → α → List β)
    (hf : ∀ acc x, (∀ b ∈ acc, P b) → ∀ b ∈ f acc x, P b) :
    ∀ (l : List α) (acc : List β), (∀ b ∈ acc, P b) → ∀ b ∈ l.foldl f acc, P b := by
  intro l
  induction l with
  | nil => intro acc h; exact h
  | cons x xs ih => intro acc h; exact ih (f acc x) (hf acc x h)

theorem scan_keys_nonempty (testsRoot : List FsNode) :
    ∀ kv ∈ scanTestDirectories testsRoot, kv.1.toList ≠ [] := by
  unfold scanTestDirectories
  refine foldl_mem_invariant _ _ ?_ testsRoot [] (by simp)
  intro acc x hacc
  cases x with
  | file n => exact hacc
  | dir relName relChildren =>
    show ∀ b ∈ (if "rel".toList.isPrefixOf relName.toList then _ else acc), _
    split
    case isFalse => exact hacc
    case isTrue hrel =>
      refine foldl_mem_invariant _ _ ?_ relChildren acc hacc
      intro acc2 y hacc2
      cases y with
      | file n => exact hacc2
      | dir ucName ucChildren =>
        show ∀ b ∈ (if "uc".toList.isPrefixOf ucName.toList then
          (if countTestFiles ucChildren > 0 then
            acc2 ++ [(relName ++ "-" ++ ucName, countTestFiles ucChildren)]
           else acc2) else acc2), _
        split
        case isFalse => exact hacc2
        case isTrue huc =>
          split
          case isFalse => exact hacc2
          case isTrue hcnt =>
            intro b hb
            rcases List.mem_append.1 hb with hin | hnew
            · exact hacc2 b hin
            · have hb2 : b = (relName ++ "-" ++ ucName, countTestFiles ucChildren) := by
                simpa using hnew
              subst hb2
              have hr : relName.toList ≠ [] := by
                rcases List.isPrefixOf_iff_prefix.1 hrel with ⟨t, ht⟩
                intro hnil
                rw [hnil] at ht
                simp at ht
              simp only [toList_append]
              intro hcontra
              exact hr (List.append_eq_nil.1 (List.append_eq_nil.1 hcontra).1).1

theorem scanLookup_empty_key (testsRoot : List FsNode) :
    scanLookup (scanTestDirectories testsRoot) "" = 0 := by
  unfold scanLookup
  cases hf : (scanTestDirectories testsRoot).find? (fun kv => kv.1 == "") with
  | none => rfl
  | some kv =>
    have hmem := List.mem_of_find?_eq_some hf
    have hp := List.find?_some hf
    have : kv.1 = "" := by simpa using hp
    have hne := scan_keys_nonempty testsRoot kv hmem
    rw [this] at hne
    simp at hne

/-- C7: for every use-case id that the `rel<version>-uc<number>` pattern
does not match, the reconciler derives no evidence path and classifies the
use case `not started` with a test-file count of zero, whatever the
evidence scan of the tests tree contains. -/
theorem unmatched_ucid_not_started :
    ∀ (testsRoot : List FsNode) (ucID status : String),
      ucIDSubmatch ucID = none →
      testDirForUC ucID = ""
      ∧ ucCodeStatusOf (scanTestDirectories testsRoot) { ID := ucID, Status := status }
          = { ID := ucID, SpecStatus := status, CodeStatus := "not started",
              TestDir := "", TestFiles := 0 } := by
  intro testsRoot ucID status h
  have hpre : ucPrefixFromID ucID = "" := by
    unfold ucPrefixFromID
    rw [h]
  have hlookup : scanLookup (scanTestDirectories testsRoot) (ucPrefixFromID ucID) = 0 := by
    rw [hpre]
    exact scanLookup_empty_key testsRoot
  constructor
  · unfold testDirForUC
    rw [h]
  · unfold ucCodeStatusOf
    simp [hlookup]

/-- Witness for `unmatched_ucid_not_started` at the concrete id
`not-a-use-case` and the scenario tests tree. -/
theorem unmatched_ucid_not_started_witness :
    testDirForUC "not-a-use-case" = ""
    ∧ ucCodeStatusOf (scanTestDirectories scenarioTree)
        { ID := "not-a-use-case", Status := "done" }
      = { ID := "not-a-use-case", SpecStatus := "done", CodeStatus := "not started",
          TestDir := "", TestFiles := 0 } :=
  unmatched_ucid_not_started scenarioTree "not-a-use-case" "done" (by decide)

/-! ## Requirement-count range policy -/

/-- C4: for every parsed task the range policy is keyed by deliverable
type — a `code` task outside 5..8 declared requirements yields exactly one
range error and one inside yields none, a `documentation` task outside 2..4
yields exactly one and one inside yields none — and the whole validator
emits exactly the concatenation of the four per-task check families, so no
other check can add or remove a range error. -/
theorem req_range_policy :
    ∀ (title : String) (d : TaskDescription) (maxReqs : Nat),
      validateMeasureOutput [{ Index := 0, Title := title, Description := some d }] maxReqs
        = { Errors := validateTask title d maxReqs, Warnings := [] }
      ∧ validateTask title d maxReqs
          = rangeErrors title d ++ capErrors title d maxReqs
            ++ collisionErrors d.files ++ minCountErrors title d
      ∧ (d.deliverableType = "code" →
          (rangeErrors title d).length
            = if 5 ≤ d.requirements ∧ d.requirements ≤ 8 then 0 else 1)
      ∧ (d.deliverableType = "documentation" →
          (rangeErrors title d).length
            = if 2 ≤ d.requirements ∧ d.requirements ≤ 4 then 0 else 1) := by
  intro title d maxReqs
  refine ⟨rfl, by simp [validateTask], ?_, ?_⟩
  · intro hdt
    unfold rangeErrors reqRange
    rw [hdt]
    have hne : ¬ ("code" : String) = "documentation" := by decide
    rw [if_neg hne]
    by_cases h : d.requirements < 5 ∨ 8 < d.requirements
    · rw [if_pos h, if_neg (by omega)]
      rfl
    · rw [if_neg h, if_pos (by omega)]
      rfl
  · intro hdt
    unfold rangeErrors reqRange
    rw [hdt, if_pos rfl]
    by_cases h : d.requirements < 2 ∨ 4 < d.requirements
    · rw [if_pos h, if_neg (by omega)]
      rfl
    · rw [if_neg h, if_pos (by omega)]
      rfl

/-- Witness for `req_range_policy`: a `code` task declaring 2 requirements
is outside the 5..8 range, hence exactly one range error. -/
theorem req_range_policy_witness :
    (rangeErrors "Underconstrained task"
      { deliverableType := "code", files := [], requirements := 2,
        acceptanceCriteria := 5, designDecisions := 3 }).length
      = if 5 ≤ 2 ∧ 2 ≤ 8 then 0 else 1 :=
  (req_range_policy "Underconstrained task"
    { deliverableType := "code", files := [], requirements := 2,
      acceptanceCriteria := 5, designDecisions := 3 } 0).2.2.1 rfl

/-! ## Maximum-requirements cap policy -/

/-- C5: for every parsed task the cap check appends exactly one error — in
addition to and independent of the range check — precisely when the
configured cap is positive and the requirement count strictly exceeds it;
a count equal to the cap yields none, a cap of zero yields none whatever
the count, and the error's text names the task title, the observed count
and the configured limit. -/
theorem max_reqs_cap_policy :
    ∀ (title : String) (d : TaskDescription) (maxReqs : Nat),
      capErrors title d maxReqs
        = (if 0 < maxReqs ∧ maxReqs < d.requirements then
            [capMsg title d.requirements maxReqs]
           else [])
      ∧ capErrors title d 0 = []
      ∧ (d.requirements ≤ maxReqs → capErrors title d maxReqs = [])
      ∧ strContains (capMsg title d.requirements maxReqs) title = true
      ∧ strContains (capMsg title d.requirements maxReqs) (toString d.requirements) = true
      ∧ strContains (capMsg title d.requirements maxReqs) (toString maxReqs) = true
      ∧ validateTask title d maxReqs
          = rangeErrors title d ++ capErrors title d maxReqs
            ++ collisionErrors d.files ++ minCountErrors title d := by
  intro title d maxReqs
  refine ⟨rfl, by simp [capErrors], ?_, ?_, ?_, ?_, by simp [validateTask]⟩
  · intro hle
    unfold capErrors
    rw [if_neg (by omega)]
  · have : capMsg title d.requirements maxReqs
        = ("task " ++ title)
          ++ (": " ++ toString d.requirements ++ " requirements, max is " ++ toString maxReqs) := by
      simp [capMsg, String.append_assoc]
    calc strContains (capMsg title d.requirements maxReqs) title
        = strContains ("task " ++ title
            ++ (": " ++ toString d.requirements ++ " requirements, max is "
                ++ toString maxReqs)) title := by rw [this]
      _ = true := strContains_middle "task " title _
  · have : capMsg title d.requirements maxReqs
        = ("task " ++ title ++ ": ") ++ toString d.requirements
          ++ (" requirements, max is " ++ toString maxReqs) := by
      simp [capMsg, String.append_assoc]
    rw [this]
    exact strContains_middle _ (toString d.requirements) _
  · have : capMsg title d.requirements maxReqs
        = ("task " ++ title ++ ": " ++ toString d.requirements ++ " requirements, max is ")
          ++ toString maxReqs ++ "" := by
      simp [capMsg, String.append_assoc]
    rw [this]
    exact strContains_middle _ (toString maxReqs) ""

/-- Witness for `max_reqs_cap_policy`: 5 declared requirements at a cap of
5 produce no cap error. -/
theorem max_reqs_cap_policy_witness :
    capErrors "At-limit task"
      { deliverableType := "code", files := [], requirements := 5,
        acceptanceCriteria := 1, designDecisions := 1 } 5 = [] :=
  (max_reqs_cap_policy "At-limit task"
    { deliverableType := "code", files := [], requirements := 5,
      acceptanceCriteria := 1, designDecisions := 1 } 5).2.2.1 (by decide)

/-! ## Naming-collision policy -/

theorem strContains_left (mid post : String) : strContains (mid ++ post) mid = true := by
  have h := hasSeg_of_middle [] mid.toList post.toList
  simp only [List.nil_append] at h
  show hasSeg mid.toList ((mid ++ post).toList) = true
  rw [toList_append]
  exact h

theorem mk_beq_iff (a b : List Char) : (String.mk a == String.mk b) = true ↔ a = b := by
  constructor
  · intro h
    exact congrArg String.toList (beq_iff_eq.1 h)
  · intro h
    subst h
    exact beq_self_eq_true _

theorem fileCollides_depth (pre d f : List Char) (hd : '/' ∉ d) (hf : '/' ∉ f) :
    (fileCollides (String.mk (pre ++ '/' :: (d ++ '/' :: f))) = true ↔ stripExt f = d) := by
  have hfall : ∀ x ∈ f.reverse, (!(x == '/')) = true := by
    intro x hx
    have hxf : x ∈ f := List.mem_reverse.1 hx
    simp only [Bool.not_eq_true', beq_eq_false_iff_ne]
    intro he
    exact hf (he ▸ hxf)
  have hdall : ∀ x ∈ d.reverse, (!(x == '/')) = true := by
    intro x hx
    have hxd : x ∈ d := List.mem_reverse.1 hx
    simp only [Bool.not_eq_true', beq_eq_false_iff_ne]
    intro he
    exact hd (he ▸ hxd)
  have hrev : (pre ++ '/' :: (d ++ '/' :: f)).reverse
      = f.reverse ++ '/' :: (d.reverse ++ '/' :: pre.reverse) := by
    simp [List.reverse_append, List.reverse_cons, List.append_assoc]
  have hlast : lastComp (pre ++ '/' :: (d ++ '/' :: f)) = f := by
    unfold lastComp
    rw [hrev, takeWhile_append_of_all _ _ _ hfall]
    simp [List.takeWhile_cons]
  have hparentComp : parentCompOf (pre ++ '/' :: (d ++ '/' :: f)) = d := by
    unfold parentCompOf
    rw [hrev, dropWhile_append_of_all _ _ _ hfall]
    have hdrop : ('/' :: (d.reverse ++ '/' :: pre.reverse)).dropWhile (fun c => !(c == '/'))
        = '/' :: (d.reverse ++ '/' :: pre.reverse) := by
      simp [List.dropWhile_cons]
    rw [hdrop]
    simp only [List.drop_succ_cons, List.drop_zero]
    rw [takeWhile_append_of_all _ _ _ hdall]
    simp [List.takeWhile_cons]
  have hcontains : ((String.mk (pre ++ '/' :: (d ++ '/' :: f))).toList).contains '/' = true := by
    show (pre ++ '/' :: (d ++ '/' :: f)).contains '/' = true
    simp
  unfold fileCollides baseNameNoExt parentDirName
  rw [hcontains]
  show (String.mk (stripExt (lastComp (pre ++ '/' :: (d ++ '/' :: f))))
        == String.mk (parentCompOf (pre ++ '/' :: (d ++ '/' :: f)))) = true ↔ _
  rw [hlast, hparentComp]
  exact mk_beq_iff _ _

/-- C6 theorem part for the error text: the collision error cites the file
path and the collision-policy violation id. -/
theorem p7msg_cites (path : String) :
    strContains (p7msg path) path = true ∧ strContains (p7msg path) "P7 violation" = true := by
  constructor
  · have h : p7msg path
        = "P7 violation: file " ++ path ++ " is named after its package directory" := rfl
    rw [h]
    exact strContains_middle "P7 violation: file " path _
  · have h : p7msg path
        = "P7 violation"
          ++ (": file " ++ (path ++ " is named after its package directory")) := by
      show ("P7 violation: file " ++ path) ++ " is named after its package directory" = _
      rw [show ("P7 violation: file " : String) = "P7 violation" ++ ": file " from rfl,
        String.append_assoc, String.append_assoc]
    rw [h]
    exact strContains_left "P7 violation" _

/-- C6: a declared file produces a naming-collision error exactly when its
base name without extension equals the name of its immediate parent
directory — at any nesting depth, only the last two path components
matter — the error cites the file path and the collision-policy violation
id, and on the spec's examples `pkg/foo/foo.go` yields the one collision
error while `pkg/foo/bar.go` yields none. -/
theorem naming_collision_policy :
    (∀ (pre d f : List Char), '/' ∉ d → '/' ∉ f →
       (fileCollides (String.mk (pre ++ '/' :: (d ++ '/' :: f))) = true ↔ stripExt f = d))
    ∧ (∀ path : String,
        strContains (p7msg path) path = true
        ∧ strContains (p7msg path) "P7 violation" = true)
    ∧ collisionErrors ["pkg/foo/foo.go"] = [p7msg "pkg/foo/foo.go"]
    ∧ collisionErrors ["pkg/foo/bar.go"] = []
    ∧ collisionErrors ["a/b/c/d/foo/bar.go"] = []
    ∧ collisionErrors ["a/b/c/d/testutils/testutils.go"] = [p7msg "a/b/c/d/testutils/testutils.go"] :=
  ⟨fileCollides_depth, p7msg_cites, by decide, by decide, by decide, by decide⟩

/-- Witness for `naming_collision_policy` at the concrete path
`pkg/foo/foo.go`, whose base name without extension equals its parent
directory's name. -/
theorem naming_collision_policy_witness :
    fileCollides (String.mk ("pkg".toList ++ '/' :: ("foo".toList ++ '/' :: "foo.go".toList))) = true
      ↔ stripExt "foo.go".toList = "foo".toList :=
  naming_collision_policy.1 "pkg".toList "foo".toList "foo.go".toList (by decide) (by decide)

/-! ## Consistency-detail and defect lists -/

/-- C8: the merged consistency-detail list carries exactly the six
graph-shape categories in the fixed order (orphaned requirement documents,
releases without test suites, orphaned test suites, broken touchpoints, use
cases not in roadmap, broken citations); it is invariant under the schema
error and drift fields, which render only in the defects list, schema
errors first, then drift entries — as the all-fields analyzer result shows
concretely. -/
theorem consistency_detail_contract :
    (∀ (r : AnalyzeResult) (se cd : List String),
       collectConsistencyDetails { r with SchemaErrors := se, ConstitutionDrift := cd }
         = collectConsistencyDetails r)
    ∧ (∀ r : AnalyzeResult,
        collectConsistencyDetails r
          = r.OrphanedPRDs.map (fun s => "orphaned PRD: " ++ s)
            ++ r.ReleasesWithoutTestSuites.map (fun s => "release without test suite: " ++ s)
            ++ r.OrphanedTestSuites.map (fun s => "orphaned test suite: " ++ s)
            ++ r.BrokenTouchpoints.map (fun s => "broken touchpoint: " ++ s)
            ++ r.UseCasesNotInRoadmap.map (fun s => "use case not in roadmap: " ++ s)
            ++ r.BrokenCitations.map (fun s => "broken citation: " ++ s))
    ∧ (∀ r : AnalyzeResult,
        collectDefects r
          = r.SchemaErrors.map (fun s => "schema error: " ++ s)
            ++ r.ConstitutionDrift.map (fun s => "constitution drift: " ++ s))
    ∧ collectConsistencyDetails testAnalyzeResult
        = ["orphaned PRD: prd-orphan",
           "release without test suite: rel01.0",
           "orphaned test suite: test-rel99.0",
           "broken touchpoint: uc001->prd-missing",
           "use case not in roadmap: rel01.0-uc099",
           "broken citation: uc001->prd001:R99"]
    ∧ collectDefects testAnalyzeResult
        = ["schema error: bad-field.yaml", "constitution drift: design.yaml"] :=
  ⟨fun _ _ _ => rfl, fun _ => rfl, fun _ => rfl, by decide, by decide⟩

/-! ## Snapshot round trip -/


theorem decodeList_map {α : Type} (f : DocVal → Option α) (g : α → DocVal)
    (h : ∀ x, f (g x) = some x) : ∀ l : List α, decodeList f (l.map g) = some l := by
  intro l
  induction l with
  | nil => rfl
  | cons x xs ih => simp [decodeList, h, ih]

theorem decodeList_str (l : List String) : decodeList asStr (l.map DocVal.str) = some l :=
  decodeList_map asStr DocVal.str (fun _ => rfl) l

theorem decodeUC_encodeUC (u : UCCodeStatus) : decodeUC (encodeUC u) = some u := rfl

theorem decodeRelease_encodeRelease (r : ReleaseCodeStatus) :
    decodeRelease (encodeRelease r) = some r := by
  show (do
    let ucs ← decodeList decodeUC (r.UseCases.map encodeUC)
    pure ({ Version := r.Version, Name := r.Name, SpecStatus := r.SpecStatus,
            CodeReadiness := r.CodeReadiness, UseCases := ucs } : ReleaseCodeStatus)) = some r
  rw [decodeList_map decodeUC encodeUC decodeUC_encodeUC r.UseCases]
  rfl

theorem decodeReport_encodeReport (c : CodeStatusReport) :
    decodeReport (encodeReport c) = some c := by
  show (do
    let rels ← decodeList decodeRelease (c.Releases.map encodeRelease)
    let gaps ← decodeList asStr (c.Gaps.map DocVal.str)
    pure ({ Releases := rels, Gaps := gaps } : CodeStatusReport)) = some c
  rw [decodeList_map decodeRelease encodeRelease decodeRelease_encodeRelease c.Releases,
    decodeList_str c.Gaps]
  rfl

/-- C9: writing an analysis snapshot and loading it back reproduces the
same document — the consistency-error count, the consistency-details list,
the defects list, and the nested code-status structure all round-trip. -/
theorem snapshot_round_trip :
    ∀ d : AnalysisDoc, decodeAnalysisDoc (encodeAnalysisDoc d) = some d := by
  intro d
  cases hcs : d.CodeStatus with
  | none =>
    have h1 : encodeAnalysisDoc d
        = .dict [("consistency_errors", .nat d.ConsistencyErrors),
                 ("consistency_details", .arr (d.ConsistencyDetails.map DocVal.str)),
                 ("defects", .arr (d.Defects.map DocVal.str))] := by
      unfold encodeAnalysisDoc
      rw [hcs]
      rfl
    rw [h1]
    show (do
      let details ← decodeList asStr (d.ConsistencyDetails.map DocVal.str)
      let defects ← decodeList asStr (d.Defects.map DocVal.str)
      pure ({ ConsistencyErrors := d.ConsistencyErrors, ConsistencyDetails := details,
              Defects := defects, CodeStatus := none } : AnalysisDoc)) = some d
    rw [decodeList_str, decodeList_str]
    show some ({ ConsistencyErrors := d.ConsistencyErrors,
                 ConsistencyDetails := d.ConsistencyDetails,
                 Defects := d.Defects, CodeStatus := none } : AnalysisDoc) = some d
    rw [← hcs]
  | some c =>
    have h1 : encodeAnalysisDoc d
        = .dict [("consistency_errors", .nat d.ConsistencyErrors),
                 ("consistency_details", .arr (d.ConsistencyDetails.map DocVal.str)),
                 ("defects", .arr (d.Defects.map DocVal.str)),
                 ("code_status", encodeReport c)] := by
      unfold encodeAnalysisDoc
      rw [hcs]
      rfl
    rw [h1]
    show (do
      let details ← decodeList asStr (d.ConsistencyDetails.map DocVal.str)
      let defects ← decodeList asStr (d.Defects.map DocVal.str)
      let codeStatus ← (decodeReport (encodeReport c)).map some
      pure ({ ConsistencyErrors := d.ConsistencyErrors, ConsistencyDetails := details,
              Defects := defects, CodeStatus := codeStatus } : AnalysisDoc)) = some d
    rw [decodeList_str, decodeList_str, decodeReport_encodeReport]
    show some ({ ConsistencyErrors := d.ConsistencyErrors,
                 ConsistencyDetails := d.ConsistencyDetails,
                 Defects := d.Defects, CodeStatus := some c } : AnalysisDoc) = some d
    rw [← hcs]

/-! ## Constitution markdown: Go vs TypeScript -/

theorem dropWhile_ws_of_tail (l : List Char)
    (h : ∀ c, (l.dropWhile (fun x => x == '\n')).head? = some c → jsWhitespace c = false) :
    l.dropWhile jsWhitespace = l.dropWhile (fun x => x == '\n') := by
  induction l with
  | nil => rfl
  | cons c t ih =>
    rw [List.dropWhile_cons, List.dropWhile_cons]
    by_cases hc : (c == '\n') = true
    · have hcnl : c = '\n' := beq_iff_eq.1 hc
      rw [if_pos hc, if_pos (by rw [hcnl]; decide)]
      apply ih
      intro x hx
      apply h
      rw [List.dropWhile_cons, if_pos hc]
      exact hx
    · have hjw : jsWhitespace c = false := by
        apply h
        rw [List.dropWhile_cons, if_neg hc]
        rfl
      rw [if_neg (by simp [hjw]), if_neg hc]

theorem trim_agree (content : String) (h : newlineOnlyTail content = true) :
    jsTrimEnd content = trimRightNewlines content := by
  unfold jsTrimEnd trimRightNewlines
  congr 1
  congr 1
  apply dropWhile_ws_of_tail
  intro c hc
  unfold newlineOnlyTail at h
  rw [hc] at h
  simpa using h

theorem constitution_fold_bridge (f : ConstitutionSection → String)
    (sections : List ConstitutionSection) :
    ∀ init : String, sections.foldl (fun b s => b ++ f s) init
      = (sections.map f).foldl (fun b s => b ++ s) init := by
  induction sections with
  | nil => intro init; rfl
  | cons s rest ih =>
    intro init
    rw [List.foldl_cons, List.map_cons, List.foldl_cons]
    exact ih _

/-- C10 counterexample: on a section whose content ends in a space, the Go
renderer keeps the space (`TrimRight` strips only newlines) while the
TypeScript renderer drops it (`trimEnd` strips all trailing whitespace), so
the two functions do not produce the same string for every section list. -/
theorem constitution_md_counterexample :
    ConstitutionToMarkdown [{ Tag := "t", Title := "T", Content := "x " }]
      ≠ constitutionToMarkdownTS [{ Tag := "t", Title := "T", Content := "x " }] := by
  decide

/-- C10 (amended): the empty list renders to the empty string in both
languages, and on every section list whose contents carry no trailing
whitespace other than newlines the Go and TypeScript renderers produce the
same string — each section as `## ` plus its title, a blank line, the
trimmed content and a trailing blank line, concatenated in input order. -/
theorem constitution_md_agree :
    (ConstitutionToMarkdown [] = "" ∧ constitutionToMarkdownTS [] = "")
    ∧ ∀ sections : List ConstitutionSection,
        (∀ s ∈ sections, newlineOnlyTail s.Content = true) →
        ConstitutionToMarkdown sections = constitutionToMarkdownTS sections := by
  refine ⟨⟨rfl, rfl⟩, ?_⟩
  intro sections h
  unfold ConstitutionToMarkdown constitutionToMarkdownTS String.join
  rw [constitution_fold_bridge goChunk sections ""]
  congr 1
  apply List.map_congr_left
  intro s hs
  unfold goChunk tsChunk
  rw [trim_agree s.Content (h s hs)]

/-- Witness for `constitution_md_agree` on a concrete section list whose
content ends in a newline only. -/
theorem constitution_md_agree_witness :
    ConstitutionToMarkdown [{ Tag := "a", Title := "First", Content := "First content.\n" }]
      = constitutionToMarkdownTS [{ Tag := "a", Title := "First", Content := "First content.\n" }] :=
  constitution_md_agree.2
    [{ Tag := "a", Title := "First", Content := "First content.\n" }] (by decide)
